import Mathlib

/-
Shallow embedding of `src/lru.py` from vitroid/typed-lru-cache.

A Python `OrderedDict[Hashable, T]` is modelled as a `List (K × V)` whose
front is the oldest (least-recently-used once `move_to_end` is in play)
entry and whose back is the newest.  The operations used by the source are
rendered faithfully:
  * `key in d`          -> `odLookup d k` is `some _`
  * `d[key]`            -> `odLookup d k`
  * `d[key] = v`        -> `odSet d k v` (replace in place, else append)
  * `d.move_to_end(key)`-> `odMoveToEnd d k` (unlink, relink at the back)
  * `d.popitem(last=False)` -> pop the front; `KeyError` on an empty dict
  * `len(d)`            -> `d.length`
Python `int` is `Int`; a fallible operation returns `Except`; the Python
value `None` is `Option.none` when the value domain matters (the wrapper
compares results against `None`, so its value type is `Option B`).
-/

namespace TypedLru

/-- A Python exception: `KeyError` from `OrderedDict.popitem` on an empty
dict, or an arbitrary exception `E` raised by user code. -/
inductive PyErr (E : Type) where
  | keyError : PyErr E
  | user : E → PyErr E
deriving DecidableEq, Repr

variable {K V B E : Type} [DecidableEq K]

/-- `key in d` / `d[key]` on the ordered-dict model: value of the first
entry with the given key. -/
def odLookup : List (K × V) → K → Option V
  | [], _ => none
  | (k2, v) :: rest, k => if k2 = k then some v else odLookup rest k

/-- `d[key] = value` on an `OrderedDict`: if the key is present, its value
is replaced in place (position kept); otherwise the pair is appended at the
back as the newest entry. -/
def odSet : List (K × V) → K → V → List (K × V)
  | [], k, v => [(k, v)]
  | (k2, w) :: rest, k, v =>
      if k2 = k then (k, v) :: rest else (k2, w) :: odSet rest k v

/-- Drop every entry with the given key (the unlink half of
`move_to_end`), keeping the relative order of the remaining entries. -/
def odErase : List (K × V) → K → List (K × V)
  | [], _ => []
  | (k2, v) :: rest, k =>
      if k2 = k then odErase rest k else (k2, v) :: odErase rest k

/-- `d.move_to_end(key)`: unlink the key's entry and relink it at the back
(most-recently-used end).  The source only calls it on present keys; on an
absent key the model leaves the dict unchanged. -/
def odMoveToEnd (l : List (K × V)) (k : K) : List (K × V) :=
  match odLookup l k with
  | none => l
  | some v => odErase l k ++ [(k, v)]

/-- `class LruCache(Generic[T])`: a capacity (a plain, unvalidated Python
int) and the backing `OrderedDict`. -/
structure LruCache (K V : Type) where
  capacity : Int
  cache : List (K × V)
deriving DecidableEq, Repr

/-- `LruCache.__init__`: stores the capacity and an empty `OrderedDict`.
No validation is performed. -/
def LruCache.new (capacity : Int) : LruCache K V :=
  ⟨capacity, []⟩

/-- `LruCache.get`: `None` if the key is absent; otherwise move the key to
the most-recently-used end and return its value.  The pair is
(returned value, state of the cache after the call). -/
def LruCache.get (c : LruCache K V) (k : K) : Option V × LruCache K V :=
  if (odLookup c.cache k).isSome then
    let cache2 := odMoveToEnd c.cache k
    (odLookup cache2 k, ⟨c.capacity, cache2⟩)
  else
    (none, c)

/-- `LruCache.insert`: if `len(cache) == capacity`, `popitem(last=False)`
pops the least-recently-used entry (raising `KeyError` when the dict is
empty, i.e. when `capacity == 0`); then `cache[key] = value` and
`move_to_end(key)`. -/
def LruCache.insert (c : LruCache K V) (k : K) (v : V) :
    Except Unit (LruCache K V) :=
  if (c.cache.length : Int) = c.capacity then
    match c.cache with
    | [] => .error ()
    | _ :: rest => .ok ⟨c.capacity, odMoveToEnd (odSet rest k v) k⟩
  else
    .ok ⟨c.capacity, odMoveToEnd (odSet c.cache k v) k⟩

/-- `LruCache.__len__`. -/
def LruCache.len (c : LruCache K V) : Nat :=
  c.cache.length

/-- `LruCache.clear`. -/
def LruCache.clear (c : LruCache K V) : LruCache K V :=
  ⟨c.capacity, []⟩

/-- One operation of the public `LruCache` interface, for stating
properties over arbitrary operation sequences. -/
inductive Op (K V : Type) where
  | get (k : K)
  | ins (k : K) (v : V)
  | clear
deriving Repr

/-- The cache state after one operation.  A `KeyError` escaping from
`insert` leaves the dict as it was (`popitem` raises before mutating). -/
def step (c : LruCache K V) : Op K V → LruCache K V
  | .get k => (c.get k).2
  | .ins k v =>
      match c.insert k v with
      | .ok c2 => c2
      | .error _ => c
  | .clear => c.clear

/-- The cache state after a sequence of operations. -/
def runOps (c : LruCache K V) (ops : List (Op K V)) : LruCache K V :=
  ops.foldl step c

/-- `_LruCacheFunctionWrapper`: the memoizing wrapper's mutable state.  Its
value domain is `Option B`: Python's `None` is `Option.none`, which is what
the wrapper's `ret is None` test compares against. -/
structure LruWrapper (K B : Type) where
  cache : LruCache K (Option B)
  hits : Nat
  misses : Nat
  maxsize : Int
deriving Repr

/-- `_LruCacheFunctionWrapper.__init__`. -/
def LruWrapper.new (maxsize : Int) : LruWrapper K B :=
  ⟨LruCache.new maxsize, 0, 0, maxsize⟩

/-- The Python-observable result of `self.__cache.get(call_args)` inside
the wrapper: the store holds values of Python type `Optional[T]`, and the
`Optional` of `get` collapses onto it — a stored `None` and an absent key
both come back as `None`. -/
def LruCache.pyGet (c : LruCache K (Option B)) (k : K) :
    Option B × LruCache K (Option B) :=
  match c.get k with
  | (none, c2) => (none, c2)
  | (some v, c2) => (v, c2)

/-- `_LruCacheFunctionWrapper.__call__` on the (already encoded) call key
`k`, with the wrapped callable `f` (which may raise a user exception `E`).
Returns the Python-observable outcome together with the wrapper state
after the call — on an exception the state mutations already performed
(the recency bump of the probe and the miss increment) persist. -/
def LruWrapper.call (w : LruWrapper K B) (f : K → Except E (Option B))
    (k : K) : Except (PyErr E) (Option B) × LruWrapper K B :=
  let r := w.cache.pyGet k
  match r.1 with
  | some v => (.ok (some v), ⟨r.2, w.hits + 1, w.misses, w.maxsize⟩)
  | none =>
      let w1 : LruWrapper K B := ⟨r.2, w.hits, w.misses + 1, w.maxsize⟩
      match f k with
      | .error e => (.error (.user e), w1)
      | .ok v =>
          match w1.cache.insert k v with
          | .error _ => (.error .keyError, w1)
          | .ok c2 => (.ok v, ⟨c2, w1.hits, w1.misses, w1.maxsize⟩)

/-- `CacheInfo` named tuple. -/
structure CacheInfo where
  hits : Nat
  misses : Nat
  maxsize : Int
  currsize : Nat
deriving DecidableEq, Repr

/-- `_LruCacheFunctionWrapper.cache_info`. -/
def LruWrapper.cacheInfo (w : LruWrapper K B) : CacheInfo :=
  ⟨w.hits, w.misses, w.maxsize, w.cache.cache.length⟩

/-- `_LruCacheFunctionWrapper.cache_clear`. -/
def LruWrapper.cacheClear (w : LruWrapper K B) : LruWrapper K B :=
  ⟨w.cache.clear, 0, 0, w.maxsize⟩

/-! ### Basic facts about the ordered-dict model -/

theorem odLookup_odErase (l : List (K × V)) (k : K) :
    odLookup (odErase l k) k = none := by
  induction l with
  | nil => rfl
  | cons p rest ih =>
    obtain ⟨k2, v⟩ := p
    by_cases h : k2 = k
    · simpa [odErase, h] using ih
    · simp [odErase, odLookup, h, ih]

theorem odLookup_odErase_ne (l : List (K × V)) (k k2 : K) (hne : k2 ≠ k) :
    odLookup (odErase l k) k2 = odLookup l k2 := by
  induction l with
  | nil => rfl
  | cons p rest ih =>
    obtain ⟨k3, v⟩ := p
    by_cases h : k3 = k
    · simp [odErase, odLookup, h, hne.symm, ih]
    · simp only [odErase, h, if_false, odLookup]
      by_cases h2 : k3 = k2
      · simp [h2]
      · simp [h2, ih]

theorem odLookup_append_none (l1 l2 : List (K × V)) (k : K)
    (h : odLookup l1 k = none) : odLookup (l1 ++ l2) k = odLookup l2 k := by
  induction l1 with
  | nil => rfl
  | cons p rest ih =>
    obtain ⟨k2, v⟩ := p
    by_cases hk : k2 = k
    · simp [odLookup, hk] at h
    · simp only [odLookup, hk, if_false, List.cons_append] at h ⊢
      exact ih h

theorem odLookup_append_some (l1 l2 : List (K × V)) (k : K) (v : V)
    (h : odLookup l1 k = some v) : odLookup (l1 ++ l2) k = some v := by
  induction l1 with
  | nil => simp [odLookup] at h
  | cons p rest ih =>
    obtain ⟨k2, w⟩ := p
    by_cases hk : k2 = k
    · simp only [odLookup, hk, if_true, List.cons_append] at h ⊢
      exact h
    · simp only [odLookup, hk, if_false, List.cons_append] at h ⊢
      exact ih h

theorem odLookup_odSet_self (l : List (K × V)) (k : K) (v : V) :
    odLookup (odSet l k v) k = some v := by
  induction l with
  | nil => simp [odSet, odLookup]
  | cons p rest ih =>
    obtain ⟨k2, w⟩ := p
    by_cases h : k2 = k
    · simp [odSet, odLookup, h]
    · simp [odSet, odLookup, h, ih]

theorem odMoveToEnd_of_lookup (l : List (K × V)) (k : K) (v : V)
    (h : odLookup l k = some v) :
    odMoveToEnd l k = odErase l k ++ [(k, v)] := by
  simp [odMoveToEnd, h]

theorem odLookup_odMoveToEnd_self (l : List (K × V)) (k : K) (v : V)
    (h : odLookup l k = some v) :
    odLookup (odMoveToEnd l k) k = some v := by
  rw [odMoveToEnd_of_lookup l k v h,
    odLookup_append_none _ _ _ (odLookup_odErase l k)]
  simp [odLookup]

theorem odErase_length_le (l : List (K × V)) (k : K) :
    (odErase l k).length ≤ l.length := by
  induction l with
  | nil => exact Nat.le_refl 0
  | cons p rest ih =>
    obtain ⟨k2, v⟩ := p
    by_cases h : k2 = k
    · simp only [odErase, h, if_true, List.length_cons]
      exact Nat.le_succ_of_le ih
    · simp only [odErase, h, if_false, List.length_cons]
      exact Nat.succ_le_succ ih

theorem odErase_length_lt (l : List (K × V)) (k : K)
    (h : (odLookup l k).isSome) : (odErase l k).length < l.length := by
  induction l with
  | nil => simp [odLookup] at h
  | cons p rest ih =>
    obtain ⟨k2, v⟩ := p
    by_cases hk : k2 = k
    · simp only [odErase, hk, if_true, List.length_cons]
      exact Nat.lt_succ_of_le (odErase_length_le rest k)
    · have h2 : (odLookup rest k).isSome := by
        simpa [odLookup, hk] using h
      simp only [odErase, hk, if_false, List.length_cons]
      exact Nat.succ_lt_succ (ih h2)

theorem odMoveToEnd_length_le (l : List (K × V)) (k : K) :
    (odMoveToEnd l k).length ≤ l.length := by
  cases h : odLookup l k with
  | none => simp [odMoveToEnd, h]
  | some v =>
    have hs : (odLookup l k).isSome := by simp [h]
    rw [odMoveToEnd_of_lookup l k v h]
    simp only [List.length_append, List.length_cons, List.length_nil]
    exact Nat.succ_le_of_lt (odErase_length_lt l k hs)

theorem odSet_length_le (l : List (K × V)) (k : K) (v : V) :
    (odSet l k v).length ≤ l.length + 1 := by
  induction l with
  | nil => simp [odSet]
  | cons p rest ih =>
    obtain ⟨k2, w⟩ := p
    by_cases h : k2 = k
    · simp [odSet, h]
    · simp only [odSet, h, if_false, List.length_cons]
      exact Nat.succ_le_succ ih

/-! ### Characterisations of `get` and `insert` -/

theorem get_absent (c : LruCache K V) (k : K)
    (h : odLookup c.cache k = none) : c.get k = (none, c) := by
  simp [LruCache.get, h]

theorem get_present (c : LruCache K V) (k : K) (v : V)
    (h : odLookup c.cache k = some v) :
    c.get k = (some v, ⟨c.capacity, odErase c.cache k ++ [(k, v)]⟩) := by
  have h1 := odMoveToEnd_of_lookup c.cache k v h
  have h2 := odLookup_odMoveToEnd_self c.cache k v h
  simp [LruCache.get, h, h1, h1 ▸ h2]

theorem get_len_le (c : LruCache K V) (k : K) :
    (c.get k).2.cache.length ≤ c.cache.length := by
  by_cases h : (odLookup c.cache k).isSome
  · simp only [LruCache.get, h, if_true]
    exact odMoveToEnd_length_le c.cache k
  · simp [LruCache.get, h]

theorem get_capacity (c : LruCache K V) (k : K) :
    (c.get k).2.capacity = c.capacity := by
  by_cases h : (odLookup c.cache k).isSome
  · simp [LruCache.get, h]
  · simp [LruCache.get, h]

theorem insert_capacity (c : LruCache K V) (k : K) (v : V)
    (c2 : LruCache K V) (h : c.insert k v = .ok c2) :
    c2.capacity = c.capacity := by
  unfold LruCache.insert at h
  split at h
  · cases hc : c.cache with
    | nil => rw [hc] at h; exact absurd h (by simp)
    | cons a rest =>
      rw [hc] at h
      cases h
      rfl
  · cases h
    rfl

theorem insert_lookup_self (c : LruCache K V) (k : K) (v : V)
    (c2 : LruCache K V) (h : c.insert k v = .ok c2) :
    odLookup c2.cache k = some v := by
  unfold LruCache.insert at h
  split at h
  · cases hc : c.cache with
    | nil => rw [hc] at h; exact absurd h (by simp)
    | cons a rest =>
      rw [hc] at h
      cases h
      exact odLookup_odMoveToEnd_self _ k v (odLookup_odSet_self rest k v)
  · cases h
    exact odLookup_odMoveToEnd_self _ k v (odLookup_odSet_self c.cache k v)

theorem insert_ok (c : LruCache K V) (k : K) (v : V)
    (h : c.cache ≠ [] ∨ c.capacity ≠ 0) : ∃ c2, c.insert k v = .ok c2 := by
  unfold LruCache.insert
  split
  case isTrue hl =>
    cases hc : c.cache with
    | nil =>
      rw [hc] at hl
      simp only [List.length_nil, Nat.cast_zero] at hl
      rcases h with h | h
      · exact absurd hc h
      · exact absurd hl.symm h
    | cons a rest => exact ⟨_, rfl⟩
  case isFalse => exact ⟨_, rfl⟩

theorem insert_len_le (c : LruCache K V) (k : K) (v : V)
    (hc : (c.cache.length : Int) ≤ c.capacity)
    (c2 : LruCache K V) (h : c.insert k v = .ok c2) :
    (c2.cache.length : Int) ≤ c.capacity := by
  unfold LruCache.insert at h
  split at h
  case isTrue hl =>
    cases hcc : c.cache with
    | nil => rw [hcc] at h; exact absurd h (by simp)
    | cons a rest =>
      rw [hcc] at h
      cases h
      have h1 : (odMoveToEnd (odSet rest k v) k).length ≤ rest.length + 1 :=
        Nat.le_trans (odMoveToEnd_length_le _ k) (odSet_length_le rest k v)
      have h2 : c.cache.length = rest.length + 1 := by rw [hcc]; rfl
      rw [h2] at hl
      simp only at h1 ⊢
      omega
  case isFalse hl =>
    cases h
    have h1 : (odMoveToEnd (odSet c.cache k v) k).length ≤ c.cache.length + 1 :=
      Nat.le_trans (odMoveToEnd_length_le _ k) (odSet_length_le c.cache k v)
    simp only at h1 ⊢
    omega

/-! ### The capacity invariant over operation sequences -/

theorem step_capacity (c : LruCache K V) (op : Op K V) :
    (step c op).capacity = c.capacity := by
  cases op with
  | get k => exact get_capacity c k
  | ins k v =>
    simp only [step]
    cases h : c.insert k v with
    | ok c2 => exact insert_capacity c k v c2 h
    | error e => rfl
  | clear => rfl

theorem step_len_le (c : LruCache K V) (op : Op K V)
    (h : (c.cache.length : Int) ≤ c.capacity) :
    ((step c op).cache.length : Int) ≤ c.capacity := by
  cases op with
  | get k =>
    have h2 := get_len_le c k
    simp only [step]
    omega
  | ins k v =>
    simp only [step]
    cases hi : c.insert k v with
    | ok c2 => exact insert_len_le c k v h c2 hi
    | error e => exact h
  | clear =>
    have h2 : (0 : Int) ≤ (c.cache.length : Int) := by positivity
    simpa [step, LruCache.clear] using le_trans h2 h

theorem runOps_cons (c : LruCache K V) (op : Op K V) (ops : List (Op K V)) :
    runOps c (op :: ops) = runOps (step c op) ops := rfl

theorem runOps_capacity (ops : List (Op K V)) (c : LruCache K V) :
    (runOps c ops).capacity = c.capacity := by
  induction ops generalizing c with
  | nil => rfl
  | cons op ops ih => rw [runOps_cons, ih, step_capacity]

theorem runOps_len_le (ops : List (Op K V)) (c : LruCache K V)
    (h : (c.cache.length : Int) ≤ c.capacity) :
    ((runOps c ops).cache.length : Int) ≤ c.capacity := by
  induction ops generalizing c with
  | nil => exact h
  | cons op ops ih =>
    rw [runOps_cons]
    have h2 := ih (step c op) (by rw [step_capacity]; exact step_len_le c op h)
    rwa [step_capacity] at h2

/-! ### The wrapper's probe and call -/

theorem pyGet_absent (c : LruCache K (Option B)) (k : K)
    (h : odLookup c.cache k = none) : c.pyGet k = (none, c) := by
  simp [LruCache.pyGet, get_absent c k h]

theorem pyGet_stored_none (c : LruCache K (Option B)) (k : K)
    (h : odLookup c.cache k = some none) :
    c.pyGet k = (none, ⟨c.capacity, odErase c.cache k ++ [(k, none)]⟩) := by
  simp [LruCache.pyGet, get_present c k none h]

theorem pyGet_stored_some (c : LruCache K (Option B)) (k : K) (b : B)
    (h : odLookup c.cache k = some (some b)) :
    c.pyGet k = (some b, ⟨c.capacity, odErase c.cache k ++ [(k, some b)]⟩) := by
  simp [LruCache.pyGet, get_present c k (some b) h]

theorem call_probe_some (w : LruWrapper K B) (f : K → Except E (Option B))
    (k : K) (b : B) (c1 : LruCache K (Option B))
    (hp : w.cache.pyGet k = (some b, c1)) :
    w.call f k = (.ok (some b), ⟨c1, w.hits + 1, w.misses, w.maxsize⟩) := by
  simp [LruWrapper.call, hp]

theorem call_miss_err (w : LruWrapper K B) (f : K → Except E (Option B))
    (k : K) (e : E) (c1 : LruCache K (Option B))
    (hp : w.cache.pyGet k = (none, c1)) (hf : f k = .error e) :
    w.call f k = (.error (.user e), ⟨c1, w.hits, w.misses + 1, w.maxsize⟩) := by
  simp [LruWrapper.call, hp, hf]

theorem call_miss_ok (w : LruWrapper K B) (f : K → Except E (Option B))
    (k : K) (v : Option B) (c1 c2 : LruCache K (Option B))
    (hp : w.cache.pyGet k = (none, c1)) (hf : f k = .ok v)
    (hins : c1.insert k v = .ok c2) :
    w.call f k = (.ok v, ⟨c2, w.hits, w.misses + 1, w.maxsize⟩) := by
  simp [LruWrapper.call, hp, hf, hins]

theorem call_miss_keyerror (w : LruWrapper K B) (f : K → Except E (Option B))
    (k : K) (v : Option B) (c1 : LruCache K (Option B))
    (hp : w.cache.pyGet k = (none, c1)) (hf : f k = .ok v)
    (hins : c1.insert k v = .error ()) :
    w.call f k = (.error .keyError, ⟨c1, w.hits, w.misses + 1, w.maxsize⟩) := by
  simp [LruWrapper.call, hp, hf, hins]

theorem call_probe_none_counters (w : LruWrapper K B)
    (f : K → Except E (Option B)) (k : K) (c1 : LruCache K (Option B))
    (hp : w.cache.pyGet k = (none, c1)) :
    (w.call f k).2.misses = w.misses + 1 ∧ (w.call f k).2.hits = w.hits := by
  cases hf : f k with
  | error e => rw [call_miss_err w f k e c1 hp hf]; exact ⟨rfl, rfl⟩
  | ok v =>
    cases hins : c1.insert k v with
    | error e =>
      rw [call_miss_keyerror w f k v c1 hp hf hins]
      exact ⟨rfl, rfl⟩
    | ok c2 =>
      rw [call_miss_ok w f k v c1 c2 hp hf hins]
      exact ⟨rfl, rfl⟩

/-! ### The claims -/

/-- Claim C1, evaluated at its failing input: `insert` pops the
least-recently-used entry whenever `len(cache) == capacity`, before (and
regardless of) checking whether the key is already resident.  Overwriting
the resident key `2` in the full capacity-2 store `{1: 10, 2: 20}` evicts
key `1` and drops the resident count from 2 to 1, contradicting the
claimed "overwrite evicts nothing and leaves the resident count
unchanged"; only the "subsequent `get` returns the latest value" part
survives. -/
theorem claim1_overwrite_at_capacity_evicts :
    (runOps (LruCache.new 2 : LruCache Nat Nat)
        [Op.ins 1 10, Op.ins 2 20]).cache = [(1, 10), (2, 20)] ∧
    (runOps (LruCache.new 2 : LruCache Nat Nat)
        [Op.ins 1 10, Op.ins 2 20, Op.ins 2 30]).cache = [(2, 30)] ∧
    (runOps (LruCache.new 2 : LruCache Nat Nat)
        [Op.ins 1 10, Op.ins 2 20, Op.ins 2 30]).len = 1 ∧
    odLookup (runOps (LruCache.new 2 : LruCache Nat Nat)
        [Op.ins 1 10, Op.ins 2 20, Op.ins 2 30]).cache 1 = none ∧
    ((runOps (LruCache.new 2 : LruCache Nat Nat)
        [Op.ins 1 10, Op.ins 2 20, Op.ins 2 30]).get 2).1 = some 30 := by
  decide

/-- Claim C2 counterexample: `LruCache.__init__` performs no validation at
all, so construction with capacity 0 succeeds and yields an ordinary
store; the failure the spec promises at construction time instead happens
later, as a `KeyError` on the first `insert` (from `popitem` on the empty
dict), and with a negative capacity nothing ever fails and the bound is
simply not enforced (two inserts into a capacity `-1` store leave two
resident entries). -/
theorem claim2_counterexample :
    (LruCache.new 0 : LruCache Nat Nat) = ⟨0, []⟩ ∧
    (LruCache.new 0 : LruCache Nat Nat).get 1 = (none, ⟨0, []⟩) ∧
    (LruCache.new 0 : LruCache Nat Nat).insert 1 1 = .error () ∧
    (runOps (LruCache.new (-1) : LruCache Nat Nat)
        [Op.ins 1 1, Op.ins 2 2]).cache = [(1, 1), (2, 2)] :=
  ⟨rfl, rfl, rfl, rfl⟩

/-- Claim C2 as amended: construction never fails and performs no
capacity validation (there is no `InvalidCapacity` error in the code).
With capacity 0, `insert` on the empty store raises `KeyError` later;
with negative capacity, `insert` never fails at all. -/
theorem claim2_no_capacity_validation (cap : Int) :
    (LruCache.new cap : LruCache K V) = ⟨cap, []⟩ ∧
    (∀ (c : LruCache K V) (k : K) (v : V),
      c.capacity = cap → cap < 0 → ∃ c2, c.insert k v = .ok c2) ∧
    (∀ (k : K) (v : V), cap = 0 →
      (LruCache.new cap : LruCache K V).insert k v = .error ()) := by
  refine ⟨rfl, ?_, ?_⟩
  · intro c k v hcap hneg
    refine insert_ok c k v (Or.inr ?_)
    rw [hcap]
    omega
  · intro k v h0
    subst h0
    rfl

/-- Witness for `claim2_no_capacity_validation` at capacity `-1`. -/
theorem claim2_witness :
    (LruCache.new (-1) : LruCache Nat Nat) = ⟨-1, []⟩ ∧
    ∃ c2, (⟨-1, [(1, 1)]⟩ : LruCache Nat Nat).insert 2 2 = .ok c2 :=
  ⟨(claim2_no_capacity_validation (-1)).1,
    (claim2_no_capacity_validation (-1)).2.1 ⟨-1, [(1, 1)]⟩ 2 2 rfl
      (by decide)⟩

/-- Claim C3: for every capacity `C >= 1` and every finite sequence of
`get`, `insert` and `clear` operations starting from the freshly
constructed store, the resident count stays at most `C` (every prefix of
a sequence is itself a sequence, so this bounds the size after every
operation). -/
theorem claim3_capacity_invariant (C : Int) (hC : 1 ≤ C)
    (ops : List (Op K V)) :
    (((runOps (LruCache.new C) ops : LruCache K V)).cache.length : Int) ≤ C := by
  have h0 : (((LruCache.new C : LruCache K V)).cache.length : Int) ≤
      (LruCache.new C : LruCache K V).capacity := by
    simp only [LruCache.new, List.length_nil, Nat.cast_zero]
    omega
  simpa [LruCache.new] using runOps_len_le ops (LruCache.new C) h0

/-- Witness for `claim3_capacity_invariant` at capacity 1 and a concrete
operation sequence. -/
theorem claim3_witness :
    (((runOps (LruCache.new 1) [Op.ins 1 1, Op.ins 2 2, Op.get 1, Op.clear,
        Op.ins 3 3] : LruCache Nat Nat)).cache.length : Int) ≤ 1 :=
  claim3_capacity_invariant 1 (by decide)
    [Op.ins 1 1, Op.ins 2 2, Op.get 1, Op.clear, Op.ins 3 3]

/-- Claim C4 counterexample: the wrapper cannot distinguish a memoized
`None` from a miss.  With `f` constantly returning `None`, the first call
on key 5 records `None` for key 5, yet the second call on the very same
key leaves the hit counter at 0 and drives the miss counter to 2 — so
"recording a value for a key and then looking it up increments the hit
counter by one" fails. -/
theorem claim4_counterexample :
    odLookup (((LruWrapper.new 2 : LruWrapper Nat Nat).call
        (fun _ => (Except.ok none : Except Unit (Option Nat))) 5).2).cache.cache
        5 = some none ∧
    (((LruWrapper.new 2 : LruWrapper Nat Nat).call
        (fun _ => (Except.ok none : Except Unit (Option Nat))) 5).2).hits = 0 ∧
    ((((LruWrapper.new 2 : LruWrapper Nat Nat).call
        (fun _ => (Except.ok none : Except Unit (Option Nat))) 5).2).call
        (fun _ => (Except.ok none : Except Unit (Option Nat))) 5).2.hits = 0 ∧
    ((((LruWrapper.new 2 : LruWrapper Nat Nat).call
        (fun _ => (Except.ok none : Except Unit (Option Nat))) 5).2).call
        (fun _ => (Except.ok none : Except Unit (Option Nat))) 5).2.misses = 2 := by
  decide

/-- Claim C4 as amended: the probe on an absent key increments the miss
counter by one and leaves the hit counter unchanged; a key resident with a
non-`None` value is a hit, incrementing the hit counter by one and
returning the memoized value; recording a non-`None` value (a miss whose
computation returns `some b`, with nonzero capacity so the insert
succeeds) and looking the same key up again increments the hit counter by
one; and both counters are monotonically non-decreasing across `__call__`
(only `cache_clear` resets them). -/
theorem claim4_hit_miss_accounting (w : LruWrapper K B)
    (f : K → Except E (Option B)) (k : K) :
    (odLookup w.cache.cache k = none →
      (w.call f k).2.misses = w.misses + 1 ∧ (w.call f k).2.hits = w.hits) ∧
    (∀ b : B, odLookup w.cache.cache k = some (some b) →
      (w.call f k).1 = .ok (some b) ∧
      (w.call f k).2.hits = w.hits + 1 ∧ (w.call f k).2.misses = w.misses) ∧
    (∀ b : B, w.cache.capacity ≠ 0 → odLookup w.cache.cache k = none →
      f k = .ok (some b) →
      ((w.call f k).2.call f k).2.hits = (w.call f k).2.hits + 1 ∧
      ((w.call f k).2.call f k).2.misses = (w.call f k).2.misses) ∧
    (w.hits ≤ (w.call f k).2.hits ∧ w.misses ≤ (w.call f k).2.misses) := by
  refine ⟨?_, ?_, ?_, ?_⟩
  · intro h
    exact call_probe_none_counters w f k w.cache (pyGet_absent w.cache k h)
  · intro b h
    rw [call_probe_some w f k b _ (pyGet_stored_some w.cache k b h)]
    exact ⟨rfl, rfl, rfl⟩
  · intro b hcap habs hf
    obtain ⟨c2, hins⟩ := insert_ok w.cache k (some b) (Or.inr hcap)
    rw [call_miss_ok w f k (some b) w.cache c2 (pyGet_absent w.cache k habs)
      hf hins]
    have h2 : odLookup c2.cache k = some (some b) :=
      insert_lookup_self w.cache k (some b) c2 hins
    rw [call_probe_some _ f k b _
      (pyGet_stored_some _ k b h2)]
    exact ⟨rfl, rfl⟩
  · rcases hp : w.cache.pyGet k with ⟨r1, c1⟩
    cases r1 with
    | none =>
      have h2 := call_probe_none_counters w f k c1 hp
      omega
    | some b =>
      rw [call_probe_some w f k b c1 hp]
      exact ⟨Nat.le_succ _, Nat.le_refl _⟩

/-- Witness for `claim4_hit_miss_accounting`: a wrapper whose store holds
`5 ↦ some 7` takes the hit branch on key 5. -/
theorem claim4_witness :
    ((⟨⟨2, [(5, some 7)]⟩, 3, 4, 2⟩ : LruWrapper Nat Nat).call
        (fun _ => (Except.ok (some 9) : Except Unit (Option Nat))) 5).1 =
      .ok (some 7) ∧
    ((⟨⟨2, [(5, some 7)]⟩, 3, 4, 2⟩ : LruWrapper Nat Nat).call
        (fun _ => (Except.ok (some 9) : Except Unit (Option Nat))) 5).2.hits =
      4 ∧
    ((⟨⟨2, [(5, some 7)]⟩, 3, 4, 2⟩ : LruWrapper Nat Nat).call
        (fun _ => (Except.ok (some 9) : Except Unit (Option Nat))) 5).2.misses =
      4 := by
  have h := (claim4_hit_miss_accounting
    (⟨⟨2, [(5, some 7)]⟩, 3, 4, 2⟩ : LruWrapper Nat Nat)
    (fun _ => (Except.ok (some 9) : Except Unit (Option Nat))) 5).2.1 7 rfl
  exact ⟨h.1, h.2.1, h.2.2⟩

/-- Claim C5 counterexample: in the capacity-2 store, `insert(3)` already
evicts key 1, so after the full trace `insert 1, insert 2, insert 3,
get 1, insert 4` the resident set is `{3, 4}`, not the claimed `{1, 4}`
(key 1 is absent at the end). -/
theorem claim5_counterexample :
    odLookup (runOps (LruCache.new 2 : LruCache Nat Nat)
        [Op.ins 1 1, Op.ins 2 2, Op.ins 3 3, Op.get 1, Op.ins 4 4]).cache 1 =
      none ∧
    (runOps (LruCache.new 2 : LruCache Nat Nat)
        [Op.ins 1 1, Op.ins 2 2, Op.ins 3 3, Op.get 1, Op.ins 4 4]).cache =
      [(3, 3), (4, 4)] := by
  decide

/-- Claim C5 as amended: inserting 1, 2, 3 into the capacity-2 store
leaves `{2, 3}` (key 1 is evicted by `insert(3)`); `get(1)` then returns
`None` and changes nothing; `insert(4)` does evict key 2 as
least-recently-used, but the final resident set is `{3, 4}`, not
`{1, 4}`. -/
theorem claim5_recency_trace :
    (runOps (LruCache.new 2 : LruCache Nat Nat)
        [Op.ins 1 1, Op.ins 2 2, Op.ins 3 3]).cache = [(2, 2), (3, 3)] ∧
    (runOps (LruCache.new 2 : LruCache Nat Nat)
        [Op.ins 1 1, Op.ins 2 2, Op.ins 3 3]).get 1 =
      (none, runOps (LruCache.new 2 : LruCache Nat Nat)
        [Op.ins 1 1, Op.ins 2 2, Op.ins 3 3]) ∧
    (runOps (LruCache.new 2 : LruCache Nat Nat)
        [Op.ins 1 1, Op.ins 2 2, Op.ins 3 3, Op.get 1, Op.ins 4 4]).cache =
      [(3, 3), (4, 4)] ∧
    odLookup (runOps (LruCache.new 2 : LruCache Nat Nat)
        [Op.ins 1 1, Op.ins 2 2, Op.ins 3 3, Op.get 1, Op.ins 4 4]).cache 2 =
      none := by
  decide

/-- Claim C6: inserting four distinct keys 1, 2, 3, 4 into a capacity-3
store evicts key 1 and only key 1 (the full store is exactly
`{2, 3, 4}` in recency order); a further insert of key 5 evicts key 2. -/
theorem claim6_eviction_order :
    (runOps (LruCache.new 3 : LruCache Nat Nat)
        [Op.ins 1 1, Op.ins 2 2, Op.ins 3 3, Op.ins 4 4]).cache =
      [(2, 2), (3, 3), (4, 4)] ∧
    odLookup (runOps (LruCache.new 3 : LruCache Nat Nat)
        [Op.ins 1 1, Op.ins 2 2, Op.ins 3 3, Op.ins 4 4]).cache 1 = none ∧
    (runOps (LruCache.new 3 : LruCache Nat Nat)
        [Op.ins 1 1, Op.ins 2 2, Op.ins 3 3, Op.ins 4 4, Op.ins 5 5]).cache =
      [(3, 3), (4, 4), (5, 5)] ∧
    odLookup (runOps (LruCache.new 3 : LruCache Nat Nat)
        [Op.ins 1 1, Op.ins 2 2, Op.ins 3 3, Op.ins 4 4, Op.ins 5 5]).cache 2 =
      none := by
  decide

/-- Claim C7: `get` on an absent key returns `None` and leaves the store
completely unchanged; `get` on a present key returns its stored value and
moves exactly that entry to the most-recently-used end, keeping every
other entry's value, and the relative order of the other entries,
unchanged (the new dict is the old one with the key's entry unlinked and
relinked at the back). -/
theorem claim7_get_frame (c : LruCache K V) (k : K) :
    (odLookup c.cache k = none → c.get k = (none, c)) ∧
    (∀ v, odLookup c.cache k = some v →
      c.get k = (some v, ⟨c.capacity, odErase c.cache k ++ [(k, v)]⟩) ∧
      (∀ k2, k2 ≠ k →
        odLookup (c.get k).2.cache k2 = odLookup c.cache k2)) := by
  refine ⟨get_absent c k, ?_⟩
  intro v h
  refine ⟨get_present c k v h, ?_⟩
  intro k2 hne
  rw [get_present c k v h]
  cases h2 : odLookup c.cache k2 with
  | none =>
    have h3 : odLookup (odErase c.cache k) k2 = none := by
      rw [odLookup_odErase_ne c.cache k k2 hne]; exact h2
    rw [odLookup_append_none _ _ _ h3]
    simp [odLookup, hne.symm]
  | some w =>
    have h3 : odLookup (odErase c.cache k) k2 = some w := by
      rw [odLookup_odErase_ne c.cache k k2 hne]; exact h2
    exact odLookup_append_some _ _ _ _ h3

/-- Witness for `claim7_get_frame` on the store `{1: 10, 2: 20}`. -/
theorem claim7_witness :
    (⟨2, [(1, 10), (2, 20)]⟩ : LruCache Nat Nat).get 1 =
      (some 10, ⟨2, [(2, 20), (1, 10)]⟩) ∧
    odLookup ((⟨2, [(1, 10), (2, 20)]⟩ : LruCache Nat Nat).get 1).2.cache 2 =
      some 20 := by
  have h := (claim7_get_frame (⟨2, [(1, 10), (2, 20)]⟩ : LruCache Nat Nat) 1).2
    10 rfl
  exact ⟨h.1, (h.2 2 (by decide)).trans rfl⟩

/-- Claim C8: `cache_clear` empties the backing store and zeroes both
counters; afterwards the probe on any key whatsoever (in particular any
previously-resident key) returns `None`, and a call therefore takes the
miss branch, leaving the counters at `hits = 0`, `misses = 1`. -/
theorem claim8_clear_resets (w : LruWrapper K B)
    (f : K → Except E (Option B)) (k : K) :
    w.cacheClear.cacheInfo.currsize = 0 ∧
    w.cacheClear.hits = 0 ∧
    w.cacheClear.misses = 0 ∧
    (w.cacheClear.cache.pyGet k).1 = none ∧
    (w.cacheClear.call f k).2.misses = 1 ∧
    (w.cacheClear.call f k).2.hits = 0 := by
  have habs : odLookup (w.cacheClear.cache.cache) k = none := rfl
  have hp := pyGet_absent w.cacheClear.cache k habs
  have hc := call_probe_none_counters w.cacheClear f k w.cacheClear.cache hp
  exact ⟨rfl, rfl, rfl, by rw [hp], hc.1, hc.2⟩

/-- Claim C9: when the probe misses (the key is genuinely absent) and the
wrapped callable raises, the exception propagates unmodified (wrapped only
in the ambient Python propagation, modelled as `PyErr.user`), the store is
left exactly as it was — no entry is recorded under the key — and the next
identical call invokes the callable again, raising again rather than
returning a memoized failure. -/
theorem claim9_error_not_cached (w : LruWrapper K B)
    (f : K → Except E (Option B)) (k : K) (e : E)
    (habs : odLookup w.cache.cache k = none) (herr : f k = .error e) :
    (w.call f k).1 = .error (.user e) ∧
    (w.call f k).2.cache = w.cache ∧
    (w.call f k).2.misses = w.misses + 1 ∧
    ((w.call f k).2.call f k).1 = .error (.user e) := by
  have h1 := call_miss_err w f k e w.cache (pyGet_absent w.cache k habs) herr
  rw [h1]
  refine ⟨rfl, rfl, rfl, ?_⟩
  have h2 := call_miss_err (⟨w.cache, w.hits, w.misses + 1, w.maxsize⟩ :
    LruWrapper K B) f k e w.cache (pyGet_absent w.cache k habs) herr
  rw [h2]

/-- Witness for `claim9_error_not_cached` on a fresh wrapper whose
callable always raises. -/
theorem claim9_witness :
    ((LruWrapper.new 2 : LruWrapper Nat Nat).call
        (fun _ => (Except.error 3 : Except Nat (Option Nat))) 5).1 =
      .error (.user 3) ∧
    ((LruWrapper.new 2 : LruWrapper Nat Nat).call
        (fun _ => (Except.error 3 : Except Nat (Option Nat))) 5).2.cache =
      (LruWrapper.new 2 : LruWrapper Nat Nat).cache := by
  have h := claim9_error_not_cached (LruWrapper.new 2 : LruWrapper Nat Nat)
    (fun _ => (Except.error 3 : Except Nat (Option Nat))) 5 3 rfl rfl
  exact ⟨h.1, h.2.1⟩

/-- Claim C10: a stored `None` is observationally a miss.  After
`insert(key, None)` succeeds, the Python-observable result of
`get(key)` is `None`, exactly what `get` returns on any absent key; and a
wrapper whose store holds `None` for the call key takes the miss branch on
every call: the miss counter increments, the hit counter does not move,
and the wrapped callable is re-invoked (its fresh outcome — exception or
value — is what the call returns). -/
theorem claim10_none_indistinguishable (c c2 : LruCache K (Option B))
    (k : K) (h : c.insert k none = .ok c2) :
    (c2.pyGet k).1 = none ∧
    (∀ k2, odLookup c2.cache k2 = none → (c2.pyGet k2).1 = none) ∧
    (∀ (w : LruWrapper K B) (f : K → Except E (Option B)),
      odLookup w.cache.cache k = some none →
      (w.call f k).2.misses = w.misses + 1 ∧
      (w.call f k).2.hits = w.hits ∧
      (∀ e, f k = .error e → (w.call f k).1 = .error (.user e)) ∧
      (∀ v, f k = .ok v → (w.call f k).1 = .ok v)) := by
  have hself : odLookup c2.cache k = some none :=
    insert_lookup_self c k none c2 h
  refine ⟨by rw [pyGet_stored_none c2 k hself], ?_, ?_⟩
  · intro k2 h2
    rw [pyGet_absent c2 k2 h2]
  · intro w f hw
    have hp := pyGet_stored_none w.cache k hw
    have hcount := call_probe_none_counters w f k _ hp
    refine ⟨hcount.1, hcount.2, ?_, ?_⟩
    · intro e hf
      rw [call_miss_err w f k e _ hp hf]
    · intro v hf
      have hnil : (odErase w.cache.cache k ++ [(k, none)]) ≠ [] := by
        simp
      obtain ⟨c3, hins⟩ := insert_ok
        (⟨w.cache.capacity, odErase w.cache.cache k ++ [(k, none)]⟩ :
          LruCache K (Option B)) k v (Or.inl hnil)
      rw [call_miss_ok w f k v _ c3 hp hf hins]

/-- Witness for `claim10_none_indistinguishable`: insert `None` under
key 5 into an empty capacity-2 store, then observe the miss-like `get`
and the miss accounting of a wrapper holding that store. -/
theorem claim10_witness :
    (((⟨2, [(5, none)]⟩ : LruCache Nat (Option Nat)).pyGet 5).1 = none) ∧
    ((⟨⟨2, [(5, none)]⟩, 0, 0, 2⟩ : LruWrapper Nat Nat).call
        (fun _ => (Except.ok (some 9) : Except Unit (Option Nat))) 5).2.misses
      = 1 ∧
    ((⟨⟨2, [(5, none)]⟩, 0, 0, 2⟩ : LruWrapper Nat Nat).call
        (fun _ => (Except.ok (some 9) : Except Unit (Option Nat))) 5).1 =
      .ok (some 9) := by
  have h := @claim10_none_indistinguishable Nat Nat Unit _
    (LruCache.new 2) ⟨2, [(5, none)]⟩ 5 rfl
  have h3 := h.2.2 (⟨⟨2, [(5, none)]⟩, 0, 0, 2⟩ : LruWrapper Nat Nat)
    (fun _ => (Except.ok (some 9) : Except Unit (Option Nat))) rfl
  exact ⟨h.1, h3.1, h3.2.2.2 (some 9) rfl⟩

end TypedLru
